import Mathlib

/-!
Verification of the phobos kinematic-tree core (`phobos/io/xmlrobot.py` and
`phobos/io/representation.py`).

The data model and the operations are embedded shallowly:

* Python dictionaries (`joint_map`, `link_map`, `parent_map`, `child_map`) are
  association lists with insertion-order iteration and update-in-place
  semantics, exactly as CPython dicts behave.
* Python object identity (used by `elem not in self.joints` membership and by
  the `id(...)` comparison on materials) is modelled by an explicit `oid`
  field on the identity-bearing entities.
* Methods that can raise are embedded as `Except String` computations; the
  possibly nonterminating `while` loops (`get_chain`, `get_transformation`,
  `_get_children_lists`) are embedded with an explicit fuel argument that is
  large enough for every terminating run, and fuel exhaustion models the
  unbounded loop.
* The numeric transform collaborator (`phobos/utils/transform.py`) is not part
  of the sources; its functions are modelled from the spec where needed and
  are marked as such in their doc comments.
-/

/-! ## Association-list model of CPython dicts -/

/-- Lookup in an association list, first match wins (CPython dict lookup). -/
def lookupMap {α : Type} : List (String × α) → String → Option α
  | [], _ => none
  | (k, v) :: rest, key => if k = key then some v else lookupMap rest key

/-- `d[k] = v` on a CPython dict: an existing key keeps its position and gets
the new value, a fresh key is appended at the end of the iteration order. -/
def updMap {α : Type} : List (String × α) → String → α → List (String × α)
  | [], key, v => [(key, v)]
  | (k, w) :: rest, key, v =>
    if k = key then (k, v) :: rest else (k, w) :: updMap rest key v

/-- Key list of an association list, in iteration order. -/
def mapKeys {α : Type} (m : List (String × α)) : List String := m.map Prod.fst

/-- `needle` is a prefix of `hay` (on character lists). -/
def beginsWith : List Char → List Char → Bool
  | [], _ => true
  | _ :: _, [] => false
  | a :: as, b :: bs => a == b && beginsWith as bs

/-- Python substring containment `needle in hay` (on character lists). -/
def containsSub : List Char → List Char → Bool
  | n, [] => beginsWith n []
  | n, c :: cs => beginsWith n (c :: cs) || containsSub n cs

/-- Python substring containment `needle in hay` on strings. -/
def strContains (needle hay : String) : Bool := containsSub needle.data hay.data

/-! ## Entities (`phobos/io/representation.py`)

Only the fields read by the kinematic-tree operations under verification are
carried; appearance and physics payloads that no embedded operation touches
are omitted.  `oid` models Python object identity. -/

/-- `Pose`: translation + Euler-angle rotation with an optional reference
frame.  `xyz`/`rpy` are `Option`s because the Python attributes default to
`None`. -/
structure Pose where
  xyz : Option (Fin 3 → ℝ)
  rpy : Option (Fin 3 → ℝ)
  relative_to : Option String

/-- `JointMimic`: a linear coupling to another joint. -/
structure JointMimic where
  joint : String
  multiplier : Option ℚ
  offset : Option ℚ

/-- `Joint`: a typed edge of the kinematic tree. -/
structure Joint where
  oid : ℕ
  name : String
  parent : String
  child : String
  joint_type : String
  origin : Pose
  mimic : Option JointMimic

/-- `Link`: a rigid-body node (visuals/collisions/inertial payload omitted,
no embedded operation reads them). -/
structure Link where
  oid : ℕ
  name : String
deriving DecidableEq

/-- `Material`: appearance descriptor, deduplicated by name at robot level. -/
structure Material where
  oid : ℕ
  name : String
deriving DecidableEq

/-- `Visual`: attached geometry carrying a material reference.
`material` models the `_material` slot the annotation mixin stores for the
`material` attribute. -/
structure Visual where
  oid : ℕ
  name : String
  material : Material
deriving DecidableEq

/-- `Motor`: actuation metadata bound to a joint by name. -/
structure Motor where
  name : String
  joint : String

/-! ## The aggregate root (`XMLRobot`) -/

/-- `XMLRobot`'s collections and derived indices.  `parent_map` maps a child
link name to `(joint name, parent link name)`; `child_map` maps a parent link
name to the list of `(joint name, child link name)` pairs.  Fields that no
embedded operation reads (name, version, sensors, transmissions) are
omitted. -/
structure XMLRobot where
  joints : List Joint
  links : List Link
  joint_map : List (String × Joint)
  link_map : List (String × Link)
  parent_map : List (String × (String × String))
  child_map : List (String × List (String × String))
  materials : List Material

/-- The state `XMLRobot.__init__` starts from: every collection empty. -/
def emptyRobot : XMLRobot := ⟨[], [], [], [], [], [], []⟩

/-- `add_aggregate('joint', elem)`: register in `joint_map`, overwrite
`parent_map[child]`, append to `child_map[parent]`, and append to the joint
list unless the same object (identity, not equality) is already there. -/
def addJoint (r : XMLRobot) (j : Joint) : XMLRobot :=
  { r with
    joint_map := updMap r.joint_map j.name j
    parent_map := updMap r.parent_map j.child (j.name, j.parent)
    child_map :=
      match lookupMap r.child_map j.parent with
      | some l => updMap r.child_map j.parent (l ++ [(j.name, j.child)])
      | none => updMap r.child_map j.parent [(j.name, j.child)]
    joints :=
      if r.joints.any (fun x => x.oid == j.oid) then r.joints
      else r.joints ++ [j] }

/-- `add_aggregate('link', elem)`: register in `link_map` and append to the
link list unless the same object is already there. -/
def addLink (r : XMLRobot) (l : Link) : XMLRobot :=
  { r with
    link_map := updMap r.link_map l.name l
    links :=
      if r.links.any (fun x => x.oid == l.oid) then r.links
      else r.links ++ [l] }

/-- The generic `add_aggregate` branch for every kind other than link/joint:
collect the names of objects whose name contains the new element's name as a
substring, suffix the new name with `_<count>` when any exist, then append.
`getName`/`setName` stand for the `.name` attribute access and mutation. -/
def addAggregateOther {α : Type} (getName : α → String) (setName : α → String → α)
    (objects : List α) (elem : α) : List α :=
  let instances :=
    objects.foldl
      (fun acc obj => if strContains (getName elem) (getName obj) then acc ++ [getName obj] else acc)
      ([] : List String)
  let elem2 :=
    if instances.length ≠ 0 then setName elem (getName elem ++ "_" ++ toString instances.length)
    else elem
  objects ++ [elem2]

/-- `add_aggregate('material', elem)` (generic branch applied to the
`materials` collection). -/
def addMaterial (r : XMLRobot) (m : Material) : XMLRobot :=
  { r with
    materials := addAggregateOther Material.name (fun x n => { x with name := n }) r.materials m }

/-- `XMLRobot.__init__(joints=..., links=...)`: joints are aggregated first,
then links (materials start empty). -/
def mkRobot (joints : List Joint) (links : List Link) : XMLRobot :=
  links.foldl addLink (joints.foldl addJoint emptyRobot)

/-- `get_root`: scan `link_map` in iteration order for links absent from
`parent_map`; a second hit raises `Multiple roots detected`, no hit raises
`No roots detected`. -/
def getRootAux (parentKeys : List String) : List String → Option String → Except String String
  | [], none => .error "No roots detected, invalid URDF."
  | [], some root => .ok root
  | l :: rest, acc =>
    if parentKeys.contains l then getRootAux parentKeys rest acc
    else
      match acc with
      | some _ => .error "Multiple roots detected, invalid URDF."
      | none => getRootAux parentKeys rest (some l)

/-- `XMLRobot.get_root()`. -/
def XMLRobot.get_root (r : XMLRobot) : Except String String :=
  getRootAux (mapKeys r.parent_map) (mapKeys r.link_map) none

/-- The links of `link_map` that are not a child in `parent_map`, in
iteration order: the candidate roots the `get_root` scan runs over. -/
def rootCandidates (r : XMLRobot) : List String :=
  (mapKeys r.link_map).filter (fun l => !((mapKeys r.parent_map).contains l))

/-- `get_instance('joint', name)` as used by `get_joint`: scan the `joints`
list for the first object with the given name. -/
def XMLRobot.get_joint (r : XMLRobot) (name : String) : Option Joint :=
  r.joints.find? (fun j => j.name == name)

/-- `XMLRobot.get_material(name)`: scan `materials` for the first name
match, `None` when absent. -/
def XMLRobot.get_material (r : XMLRobot) (name : String) : Option Material :=
  r.materials.find? (fun m => m.name == name)

/-- `XMLRobot.get_parent(name, targettype)`: read `parent_map`; a link that
is only a parent yields `None`; an unknown name raises.  The joint/link
target types return singleton name lists; the fallthrough returns both
components of the raw pair. -/
def XMLRobot.get_parent (r : XMLRobot) (name : String) (targettype : String) :
    Except String (Option (List String)) :=
  match lookupMap r.parent_map name with
  | some parents =>
    if targettype = "link" then .ok (some [parents.2])
    else if targettype = "joint" then .ok (some [parents.1])
    else .ok (some [parents.1, parents.2])
  | none =>
    if (mapKeys r.child_map).contains name then .ok none
    else .error ("Nothing with name " ++ name ++ " in this robot")

/-- `XMLRobot.get_children(name, targettype)`: read `child_map`, project the
joint or link component (only these two target types are exercised by the
embedded callers). -/
def XMLRobot.get_children (r : XMLRobot) (name : String) (targettype : String) : List String :=
  match lookupMap r.child_map name with
  | none => []
  | some children =>
    if children.isEmpty then []
    else if targettype = "joint" then children.map Prod.fst
    else if targettype = "link" then children.map Prod.snd
    else []

/-- `XMLRobot._get_children_lists(parentlist, childrenlist)` with the default
`targettype='link'`; the recursion is fueled, `none` models the unbounded
recursion on a cyclic index. -/
def getChildrenLists (r : XMLRobot) :
    ℕ → List String → List String → Option (List String × List String)
  | 0, _, _ => none
  | fuel + 1, parentlist, childrenlist =>
    let childs := parentlist.foldl (fun acc p => acc ++ r.get_children p "link") []
    if 0 < childs.length then
      match getChildrenLists r fuel childs [] with
      | some (newparents, newchildren) =>
        some (parentlist ++ newparents, childrenlist ++ childs ++ newchildren)
      | none => none
    else some ([], [])

/-- Result alternatives of `get_leaves`: Python `None`, a list of leaf names,
or the `(parents, children)` partition (returned as the two accumulated lists,
which Python wraps into sets). -/
inductive LeavesResult where
  | pynone : LeavesResult
  | leaves (ls : List String) : LeavesResult
  | partition (parents children : List String) : LeavesResult
deriving DecidableEq

/-- The value of `set(parent_map.keys()) - set(child_map.keys())`, listed in
`parent_map` iteration order. -/
def leavesList (r : XMLRobot) : List String :=
  (mapKeys r.parent_map).filter (fun k => ¬ (mapKeys r.child_map).contains k)

/-- `XMLRobot.get_leaves(start)`.  A falsy `start` (absent or empty) yields
the global leaf set; a `start` that is not a key of `parent_map` yields
`None`; otherwise the recursive partition is computed.  The `.error` case is
fuel exhaustion of the recursion. -/
def XMLRobot.get_leaves (r : XMLRobot) (start : Option String) : Except String LeavesResult :=
  match start with
  | none => .ok (.leaves (leavesList r))
  | some s =>
    if s = "" then .ok (.leaves (leavesList r))
    else if ¬ (mapKeys r.parent_map).contains s then .ok .pynone
    else
      match getChildrenLists r (r.links.length + 1) [s] [] with
      | some (parents, children) => .ok (.partition parents children)
      | none => .error "unbounded recursion in get_children_lists"

/-- Loop body of `XMLRobot.get_chain`: walk `parent_map` from `tip` upward,
accumulating joint names (optionally skipping `fixed` joints, which looks the
joint up in `joint_map`) and link names; the accumulated list is reversed by
the caller.  Fuel exhaustion models the unbounded loop when `tip` is not a
descendant of `root`. -/
def getChainAux (r : XMLRobot) (root : String) (jointsF linksF fixedF : Bool) :
    ℕ → String → List String → Except String (List String)
  | fuel, link, chain =>
    if link = root then .ok chain
    else
      match fuel with
      | 0 => .error "unbounded loop: tip is not a descendant of root"
      | fuel + 1 =>
        match lookupMap r.parent_map link with
        | none => .error ("KeyError: " ++ link)
        | some (joint, parent) =>
          let step : Except String (List String) :=
            if jointsF then
              if fixedF then .ok (chain ++ [joint])
              else
                match lookupMap r.joint_map joint with
                | none => .error ("KeyError: " ++ joint)
                | some j => .ok (if j.joint_type != "fixed" then chain ++ [joint] else chain)
            else .ok chain
          match step with
          | .error e => .error e
          | .ok chain1 =>
            let chain2 := if linksF then chain1 ++ [parent] else chain1
            getChainAux r root jointsF linksF fixedF fuel parent chain2

/-- `XMLRobot.get_chain(root, tip, joints, links, fixed)`. -/
def XMLRobot.get_chain (r : XMLRobot) (root tip : String) (jointsF linksF fixedF : Bool) :
    Except String (List String) :=
  match getChainAux r root jointsF linksF fixedF (r.links.length + 1) tip
      (if linksF then [tip] else []) with
  | .ok chain => .ok chain.reverse
  | .error e => .error e

/-- Final assertion of `Visual.link_with_robot`:
`assert id(self._material) == id(robot.get_material(self._material.name))`,
where `matNow` is the visual's material object after the registration step
(the same Python object, whose name `add_aggregate` may have rewritten). -/
def linkAssert (r' : XMLRobot) (v : Visual) (matNow : Material) :
    Except String (XMLRobot × Visual) :=
  match r'.get_material matNow.name with
  | some m =>
    if m.oid == matNow.oid then .ok (r', { v with material := matNow })
    else .error "AssertionError: id(self._material) == id(robot.get_material(self._material.name))"
  | none =>
    .error "AssertionError: id(self._material) == id(robot.get_material(self._material.name))"

/-- `Visual.link_with_robot(robot)`: look the material up by name; if absent,
register it through the generic `add_aggregate` branch; finally assert that
the registered material under the (possibly renamed) name is the very same
object.  The shared-object rename performed inside `add_aggregate` is
reflected by re-reading the object with the visual's material identity. -/
def Visual.link_with_robot (r : XMLRobot) (v : Visual) : Except String (XMLRobot × Visual) :=
  match r.get_material v.material.name with
  | none =>
    linkAssert (addMaterial r v.material) v
      (((addMaterial r v.material).materials.find?
        (fun m => m.oid == v.material.oid)).getD v.material)
  | some m =>
    if m.oid == v.material.oid then .ok (r, v)
    else .error "AssertionError: id(self._material) == id(robot.get_material(self._material.name))"

/-- `Motor.mimic_motor` reads `self._joint.mimic.joint`; the `_joint` slot is
resolved by name against the robot the motor was linked with.  Missing joint
or missing mimic raise attribute errors. -/
def Motor.mimic_motor (m : Motor) (r : XMLRobot) : Except String String :=
  match r.get_joint m.joint with
  | none => .error "AttributeError: NoneType has no attribute mimic"
  | some j =>
    match j.mimic with
    | none => .error "AttributeError: NoneType has no attribute joint"
    | some mm => .ok mm.joint

/-- `Motor.mimic_multiplier` reads `self._joint.mimic.multiplier`. -/
def Motor.mimic_multiplier (m : Motor) (r : XMLRobot) : Except String (Option ℚ) :=
  match r.get_joint m.joint with
  | none => .error "AttributeError: NoneType has no attribute mimic"
  | some j =>
    match j.mimic with
    | none => .error "AttributeError: NoneType has no attribute multiplier"
    | some mm => .ok mm.multiplier

/-- `Motor.mimic_offset` reads `self._joint.mimic.offset`. -/
def Motor.mimic_offset (m : Motor) (r : XMLRobot) : Except String (Option ℚ) :=
  match r.get_joint m.joint with
  | none => .error "AttributeError: NoneType has no attribute offset"
  | some j =>
    match j.mimic with
    | none => .error "AttributeError: NoneType has no attribute offset"
    | some mm => .ok mm.offset

/-- `Motor.__init__` invokes the annotation mixin's initializer without the
instance argument (`SmurfBase.__init__(name=name, joint=joint, link=None,
...)` at `representation.py:547`), unlike the sibling entity classes, which
pass `self`.  Under Python call semantics the mixin initializer is then
missing its required first positional argument, so every construction raises
before any attribute is set; the constructor is modelled as always
failing. -/
def Motor.init (name joint : String) : Except String Motor :=
  .error ("TypeError: SmurfBase init of Motor " ++ name ++ " for joint " ++ joint ++
    " is missing the required positional instance argument")

/-! ## Concrete fixtures used by the scenario claims -/

/-- A pose with the given numeric translation/rotation entries. -/
def mkPose (x y z : ℝ) (rr pp yy : ℝ) : Pose :=
  ⟨some ![x, y, z], some ![rr, pp, yy], none⟩

/-- The scenario joint `j1` (parent `base`, child `arm`, origin `xyz=[1,0,0]`,
`rpy=[0,0,0]`, revolute). -/
def j1 : Joint := ⟨100, "j1", "base", "arm", "revolute", mkPose 1 0 0 0 0 0, none⟩

/-- The scenario link `base`. -/
def baseLink : Link := ⟨1, "base"⟩

/-- The scenario link `arm`. -/
def armLink : Link := ⟨2, "arm"⟩

/-- The two-link scenario robot: links `base`, `arm`, joint `j1`. -/
def twoLink : XMLRobot := mkRobot [j1] [baseLink, armLink]

/-- A disconnected robot: two links, no joint between them. -/
def disconnected : XMLRobot := mkRobot [] [baseLink, armLink]

/-- A two-link robot whose two joints form a cycle, so no link is
parentless. -/
def cyclic : XMLRobot :=
  mkRobot
    [⟨101, "jab", "a", "b", "revolute", mkPose 0 0 0 0 0 0, none⟩,
     ⟨102, "jba", "b", "a", "revolute", mkPose 0 0 0 0 0 0, none⟩]
    [⟨11, "a"⟩, ⟨12, "b"⟩]

/-- A forest with two components: `a → b` and `c → d`. -/
def forest : XMLRobot :=
  mkRobot
    [⟨103, "jab", "a", "b", "revolute", mkPose 0 0 0 0 0 0, none⟩,
     ⟨104, "jcd", "c", "d", "revolute", mkPose 0 0 0 0 0 0, none⟩]
    [⟨11, "a"⟩, ⟨12, "b"⟩, ⟨13, "c"⟩, ⟨14, "d"⟩]

/-- Joint `j2` of the mimic scenario: `mimic={joint: "j1", multiplier: 2,
offset: 0}`. -/
def j2 : Joint :=
  ⟨105, "j2", "mid", "tip", "revolute", mkPose 0 0 0 0 0 0,
    some ⟨"j1", some 2, some 0⟩⟩

/-- Robot of the mimic scenario: `base → mid` via `j1m`, `mid → tip` via
`j2`. -/
def mimicRobot : XMLRobot :=
  mkRobot
    [⟨106, "j1", "base", "mid", "revolute", mkPose 0 0 0 0 0 0, none⟩, j2]
    [⟨21, "base"⟩, ⟨22, "mid"⟩, ⟨23, "tip"⟩]

/-- The motor of the mimic scenario, bound to joint `j2`. -/
def m2 : Motor := ⟨"m2", "j2"⟩

/-! ## Transform algebra

`Pose.from_matrix` / `Pose.to_matrix` / `Pose.transform` live in
`representation.py`; the numeric collaborators `rpy_to_matrix`,
`matrix_to_rpy`, `round_array` and `create_transformation` live in the
external `phobos/utils/transform.py`, which is not part of these sources, and
are modelled from the spec (sections 3 and 6). -/

/-- 3-by-3 real matrices. -/
abbrev Mat3 := Matrix (Fin 3) (Fin 3) ℝ

/-- 4-by-4 real matrices (homogeneous transforms). -/
abbrev Mat4 := Matrix (Fin 4) (Fin 4) ℝ

/-- Modelled from the spec: the external transform-math collaborator's
Euler-angle → rotation-matrix conversion (roll–pitch–yaw, the URDF
convention `Rz(yaw) Ry(pitch) Rx(roll)`); `phobos/utils/transform.py` is not
part of the sources. -/
noncomputable def rpy_to_matrix (v : Fin 3 → ℝ) : Mat3 :=
  !![Real.cos (v 2) * Real.cos (v 1),
     Real.cos (v 2) * Real.sin (v 1) * Real.sin (v 0) - Real.sin (v 2) * Real.cos (v 0),
     Real.cos (v 2) * Real.sin (v 1) * Real.cos (v 0) + Real.sin (v 2) * Real.sin (v 0);
     Real.sin (v 2) * Real.cos (v 1),
     Real.sin (v 2) * Real.sin (v 1) * Real.sin (v 0) + Real.cos (v 2) * Real.cos (v 0),
     Real.sin (v 2) * Real.sin (v 1) * Real.cos (v 0) - Real.cos (v 2) * Real.sin (v 0);
     -Real.sin (v 1),
     Real.cos (v 1) * Real.sin (v 0),
     Real.cos (v 1) * Real.cos (v 0)]

/-- Modelled from the spec: the external rotation-matrix → Euler-angle
conversion, specified (spec section 6) as the other direction of the
`Euler-angle ⇄ rotation-matrix` conversion; it is modelled as a choice of
preimage of `rpy_to_matrix`, which is all the round-trip contract of the
spec uses. -/
noncomputable def matrix_to_rpy (R : Mat3) : Fin 3 → ℝ :=
  Function.invFun rpy_to_matrix R

/-- The rotation block `T[0:3, 0:3]`. -/
def rotBlock (T : Mat4) : Mat3 :=
  !![T 0 0, T 0 1, T 0 2;
     T 1 0, T 1 1, T 1 2;
     T 2 0, T 2 1, T 2 2]

/-- The translation column `T[0:3, 3]`. -/
def translation (T : Mat4) : Fin 3 → ℝ := ![T 0 3, T 1 3, T 2 3]

/-- Assemble a homogeneous matrix: rotation block, translation column, bottom
row `[0, 0, 0, 1]` (the `np.identity(4)` / block-assignment sequence shared by
`Pose.to_matrix` and the spec's model of `create_transformation`). -/
def hom (R : Mat3) (p : Fin 3 → ℝ) : Mat4 :=
  !![R 0 0, R 0 1, R 0 2, p 0;
     R 1 0, R 1 1, R 1 2, p 1;
     R 2 0, R 2 1, R 2 2, p 2;
     0, 0, 0, 1]

/-- Rounding a real to `d` decimals. -/
noncomputable def roundDec (d : ℕ) (x : ℝ) : ℝ :=
  (round (x * (10 : ℝ) ^ d) : ℤ) / (10 : ℝ) ^ d

/-- The Python value handed to `Pose.from_matrix`'s `dec` parameter: the
numeric decimal count of the normal call, or the frame-name string / `None`
that `Pose.transform` passes positionally. -/
inductive DecParam where
  | num (d : ℕ) : DecParam
  | frame (s : String) : DecParam
  | pynone : DecParam
deriving DecidableEq

/-- Modelled from the spec: `round_array(vec, dec)` of the external
transform-math collaborator, whose contract is fixed numeric rounding
semantics (spec section 6).  Rounding is defined for a numeric decimal
count; a frame-name string or `None` in the `dec` position has no rounding
semantics and is modelled as failure. -/
noncomputable def round_array (dec : DecParam) (v : Fin 3 → ℝ) : Option (Fin 3 → ℝ) :=
  match dec with
  | .num d => some (fun i => roundDec d (v i))
  | _ => none

/-- A possibly missing pose vector, defaulted to zero (spec section 3: the
`vec` contract defaults missing parts to zero). -/
def vecD (v : Option (Fin 3 → ℝ)) : Fin 3 → ℝ := v.getD (fun _ => 0)

/-- `Pose.to_matrix`: identity matrix with the translation column and the
rotation block overwritten. -/
noncomputable def Pose.to_matrix (p : Pose) : Mat4 :=
  hom (rpy_to_matrix (vecD p.rpy)) (vecD p.xyz)

/-- `Pose.from_matrix(T, dec, relative_to)`: rounded translation column and
rounded Euler decomposition of the rotation block. -/
noncomputable def Pose.from_matrix (T : Mat4) (dec : DecParam) (relative_to : Option String) :
    Option Pose :=
  match round_array dec (translation T), round_array dec (matrix_to_rpy (rotBlock T)) with
  | some a, some b => some ⟨some a, some b, relative_to⟩
  | _, _ => none

/-- The `dec` value `Pose.transform` actually passes: its second positional
argument is `self.relative_to`, which lands in `from_matrix`'s `dec`
parameter. -/
def decOfPy : Option String → DecParam
  | none => .pynone
  | some s => .frame s

/-- `Pose.transform(T)` as written at `representation.py:81-86`:
`Pose.from_matrix(T.dot(self.to_matrix()), self.relative_to)` — the second
positional argument of `from_matrix` is `dec`, so `self.relative_to` is
passed as the decimal count and `relative_to` of the result defaults to
`None`. -/
noncomputable def Pose.transform (p : Pose) (T : Mat4) : Option Pose :=
  Pose.from_matrix (T * p.to_matrix) (decOfPy p.relative_to) none

/-- Modelled from the spec: `create_transformation(xyz, rpy)` of the external
transform-math collaborator builds a homogeneous transform from translation
and orientation (spec section 6), missing parts defaulting to zero. -/
noncomputable def create_transformation (xyz rpy : Option (Fin 3 → ℝ)) : Mat4 :=
  hom (rpy_to_matrix (vecD rpy)) (vecD xyz)

/-- Loop body of `XMLRobot.get_transformation`: starting from `end`, repeat
`T = create_transformation(pjoint.origin.xyz, pjoint.origin.rpy).dot(T)` and
step to `pjoint.parent` until `start` is reached.  `get_parent` raising, a
parentless link and a joint name that is not in the `joints` list are the
error cases; fuel exhaustion models the unbounded loop on a cyclic
`parent_map`. -/
noncomputable def gtAux (r : XMLRobot) (start : String) :
    ℕ → String → Mat4 → Except String Mat4
  | fuel, link, t =>
    if link = start then .ok t
    else
      match fuel with
      | 0 => .error "unbounded loop in get_transformation"
      | fuel + 1 =>
        match r.get_parent link "joint" with
        | .error e => .error e
        | .ok none => .error (link ++ " has no parent, but is different from start " ++ start)
        | .ok (some parents) =>
          match r.get_joint (parents.headD "") with
          | none => .error "AttributeError: NoneType has no attribute origin"
          | some pjoint =>
            gtAux r start fuel pjoint.parent
              (create_transformation pjoint.origin.xyz pjoint.origin.rpy * t)

/-- `XMLRobot.get_transformation(end, start)`: `start` defaults to
`get_root()`; the accumulator starts at
`create_transformation((0,0,0), (0,0,0))`, the identity. -/
noncomputable def XMLRobot.get_transformation (r : XMLRobot) (endLink : String)
    (start : Option String) : Except String Mat4 :=
  match (match start with | some s => Except.ok s | none => r.get_root) with
  | .error e => .error e
  | .ok s =>
    gtAux r s (r.links.length + 1) endLink
      (create_transformation (some (fun _ => 0)) (some (fun _ => 0)))

/-! ## Path predicates used to state the traversal claims

Both walks follow `parent_map` from a lower link up to the walk's start
link; they differ in where the joint object is looked up (`joints` list for
`get_transformation`, `joint_map` for `get_chain`), so each gets its own
predicate.  A chain of joints `[jₖ, ..., j₁]` listed from the lower end
upward witnesses that the lower link is a descendant of the start link. -/

/-- `isChain r start l js`: walking from link `l` toward `start`, the links
on the way are exactly the children of the successive joints `js`, each step
agreeing with `parent_map` (which supplies the joint name `get_parent`
returns) and the `joints` list (which `get_joint` scans). -/
def isChain (r : XMLRobot) (start : String) : String → List Joint → Prop
  | l, [] => l = start
  | l, j :: rest =>
    l ≠ start ∧ (∃ pp, lookupMap r.parent_map l = some (j.name, pp)) ∧
      r.get_joint j.name = some j ∧ isChain r start j.parent rest

/-- `isPath r root l js`: the `get_chain` variant of `isChain`, resolving
joints through `joint_map` and stepping to the parent stored in
`parent_map`. -/
def isPath (r : XMLRobot) (root : String) : String → List Joint → Prop
  | l, [] => l = root
  | l, j :: rest =>
    l ≠ root ∧ lookupMap r.parent_map l = some (j.name, j.parent) ∧
      lookupMap r.joint_map j.name = some j ∧ isPath r root j.parent rest

/-- One loop iteration of `get_transformation` as a fold step:
left-multiplication by the parent joint's origin transform. -/
noncomputable def gtStep (acc : Mat4) (j : Joint) : Mat4 :=
  create_transformation j.origin.xyz j.origin.rpy * acc

/-- One loop iteration of `get_chain` (joints and links accumulated, `fixed`
joints dropped when `fixedF` is false) as a fold step. -/
def chainStep (fixedF : Bool) (acc : List String) (j : Joint) : List String :=
  (if fixedF || j.joint_type != "fixed" then acc ++ [j.name] else acc) ++ [j.parent]

/-! ## Helper lemmas -/

/-- Updating a key makes it resolve to the new value. -/
theorem lookup_updMap_self {α : Type} (m : List (String × α)) (k : String) (v : α) :
    lookupMap (updMap m k v) k = some v := by
  induction m with
  | nil => simp [updMap, lookupMap]
  | cons hd tl ih =>
    by_cases h : hd.1 = k
    · simp [updMap, lookupMap, h]
    · simp [updMap, lookupMap, h, ih]

/-- Updating a key leaves the other keys unchanged. -/
theorem lookup_updMap_ne {α : Type} (m : List (String × α)) (k : String) (v : α)
    (k' : String) (h : k ≠ k') : lookupMap (updMap m k v) k' = lookupMap m k' := by
  induction m with
  | nil => simp [updMap, lookupMap, h]
  | cons hd tl ih =>
    by_cases hk : hd.1 = k
    · simp [updMap, lookupMap, hk, h, ih]
    · simp only [updMap, lookupMap, hk, if_false]
      by_cases hk' : hd.1 = k'
      · simp [lookupMap, hk']
      · simp [lookupMap, hk', ih]

/-- Characterization of the `get_root` scan: it succeeds with `root` exactly
when `root` is the single parentless entry of the key list (given an empty
accumulator), or the accumulator is already `root` and no parentless entry
remains. -/
theorem getRootAux_ok (pk : List String) :
    ∀ (ks : List String) (acc : Option String) (root : String),
      getRootAux pk ks acc = .ok root ↔
        ((acc = none ∧ ks.filter (fun l => !(pk.contains l)) = [root]) ∨
         (acc = some root ∧ ks.filter (fun l => !(pk.contains l)) = [])) := by
  intro ks
  induction ks with
  | nil =>
    intro acc root
    cases acc <;> simp [getRootAux]
  | cons l ks ih =>
    intro acc root
    by_cases hc : l ∈ pk
    · cases acc <;>
        simp [getRootAux, hc, ih, List.filter_cons]
    · cases acc with
      | none =>
        simp [getRootAux, hc, ih, List.filter_cons]
      | some a =>
        simp [getRootAux, hc, List.filter_cons]

/-! ## C2: get_root -/

/-- C2: `get_root()` returns the unique link name that is in `link_map` but
absent from `parent_map` (first conjunct: success is equivalent to the
parentless sublist of `link_map` being exactly the singleton of the returned
root); it raises when more than one such link exists — in particular for two
links with no joint between them — and when none exists (a cyclic joint
pair). -/
theorem C2_get_root_unique :
    (∀ (r : XMLRobot) (root : String),
        r.get_root = .ok root ↔ rootCandidates r = [root]) ∧
    disconnected.get_root = .error "Multiple roots detected, invalid URDF." ∧
    cyclic.get_root = .error "No roots detected, invalid URDF." := by
  refine ⟨?_, rfl, rfl⟩
  intro r root
  have h := getRootAux_ok (mapKeys r.parent_map) (mapKeys r.link_map) none root
  simpa [XMLRobot.get_root, rootCandidates] using h

/-! ## C3: add_aggregate("joint") -/

/-- C3: `add_aggregate("joint", j)` sets `joint_map[j.name] = j`, sets
`parent_map[j.child] = (j.name, j.parent)` — so a later joint sharing the
same child overwrites the earlier mapping without error (the equation holds
for every prior robot state) — appends `(j.name, j.child)` to
`child_map[j.parent]`, and appends `j` to the joints list only if not
already present (object identity).  Consequently, after any insertion
sequence from the empty robot, `parent_map` maps each child to the
last-inserted joint with that child and `child_map` lists, per parent and in
insertion order, the joints inserted so far. -/
theorem C3_add_joint_sync :
    (∀ (r : XMLRobot) (j : Joint),
        lookupMap (addJoint r j).joint_map j.name = some j ∧
        lookupMap (addJoint r j).parent_map j.child = some (j.name, j.parent) ∧
        lookupMap (addJoint r j).child_map j.parent =
          some ((lookupMap r.child_map j.parent).getD [] ++ [(j.name, j.child)]) ∧
        (addJoint r j).joints =
          (if r.joints.any (fun x => x.oid == j.oid) then r.joints else r.joints ++ [j])) ∧
    (∀ (js : List Joint) (c : String),
        lookupMap (js.foldl addJoint emptyRobot).parent_map c =
          (js.reverse.find? (fun j => j.child == c)).map (fun j => (j.name, j.parent))) ∧
    (∀ (js : List Joint) (p : String),
        (lookupMap (js.foldl addJoint emptyRobot).child_map p).getD [] =
          (js.filter (fun j => j.parent == p)).map (fun j => (j.name, j.child))) := by
  refine ⟨?_, ?_, ?_⟩
  · intro r j
    refine ⟨lookup_updMap_self _ _ _, lookup_updMap_self _ _ _, ?_, rfl⟩
    rcases h : lookupMap r.child_map j.parent with _ | l <;>
      simp [addJoint, h, lookup_updMap_self]
  · intro js c
    induction js using List.reverseRecOn with
    | nil => simp [emptyRobot, lookupMap]
    | append_singleton js j ih =>
      rw [List.foldl_append]
      by_cases hc : j.child = c
      · subst hc
        simp [addJoint, lookup_updMap_self]
      · have hne : ¬ (j.child == c) = true := by simpa using hc
        simp only [List.foldl_cons, List.foldl_nil, List.reverse_append,
          List.reverse_singleton, List.singleton_append, List.find?_cons, hne]
        rw [show (js.foldl addJoint emptyRobot |> fun r => addJoint r j).parent_map =
              updMap (js.foldl addJoint emptyRobot).parent_map j.child (j.name, j.parent)
            from rfl]
        rw [lookup_updMap_ne _ _ _ _ hc, ih]
  · intro js p
    induction js using List.reverseRecOn with
    | nil => simp [emptyRobot, lookupMap]
    | append_singleton js j ih =>
      rw [List.foldl_append, List.filter_append]
      by_cases hp : j.parent = p
      · subst hp
        have heq : (List.filter (fun x => x.parent == j.parent) [j]) = [j] := by simp
        rw [heq, List.map_append]
        have hcm : lookupMap (addJoint (js.foldl addJoint emptyRobot) j).child_map j.parent =
            some ((lookupMap (js.foldl addJoint emptyRobot).child_map j.parent).getD []
              ++ [(j.name, j.child)]) := by
          rcases h : lookupMap (js.foldl addJoint emptyRobot).child_map j.parent with _ | l <;>
            simp [addJoint, h, lookup_updMap_self]
        simp only [List.foldl_cons, List.foldl_nil, hcm, Option.getD_some, ih, List.map_cons,
          List.map_nil]
      · have hne : (List.filter (fun x => x.parent == p) [j]) = [] := by simp [hp]
        rw [hne, List.append_nil]
        have hcm : lookupMap (addJoint (js.foldl addJoint emptyRobot) j).child_map p =
            lookupMap (js.foldl addJoint emptyRobot).child_map p := by
          rcases h : lookupMap (js.foldl addJoint emptyRobot).child_map j.parent with _ | l <;>
            simp only [addJoint, h] <;> rw [lookup_updMap_ne _ _ _ _ hp]
        simp only [List.foldl_cons, List.foldl_nil, hcm, ih]

theorem instances_foldl_length {α : Type} (getName : α → String) (needle : String) :
    ∀ (objs : List α) (init : List String),
      (objs.foldl
        (fun acc obj => if strContains needle (getName obj) then acc ++ [getName obj] else acc)
        init).length
        = init.length + objs.countP (fun o => strContains needle (getName o)) := by
  intro objs
  induction objs with
  | nil => intro init; simp
  | cons o objs ih =>
    intro init
    by_cases h : strContains needle (getName o)
    · simp [List.countP_cons, h, ih]; omega
    · simp [List.countP_cons, h, ih]

/-- C8: for a kind other than link/joint, `add_aggregate` appends the element
after renaming it to `<name>_<count>` when `count > 0` objects of the
collection have the new name as a *substring* of their name (not exact
match), and under its original name otherwise.  The concrete conjuncts show
the substring quirk (`"blue"` collides with `"dark_blue"` and becomes
`"blue_1"`) and the collision-free append. -/
theorem C8_generic_rename :
    (∀ {α : Type} (getName : α → String) (setName : α → String → α)
        (objs : List α) (elem : α),
        addAggregateOther getName setName objs elem =
          objs ++
            [if objs.countP (fun o => strContains (getName elem) (getName o)) = 0 then elem
             else setName elem (getName elem ++ "_" ++
               toString (objs.countP (fun o => strContains (getName elem) (getName o))))]) ∧
    (addMaterial { emptyRobot with materials := [⟨0, "dark_blue"⟩] } ⟨1, "blue"⟩).materials =
      [⟨0, "dark_blue"⟩, ⟨1, "blue_1"⟩] ∧
    (addMaterial emptyRobot ⟨1, "blue"⟩).materials = [⟨1, "blue"⟩] := by
  refine ⟨?_, rfl, rfl⟩
  intro α getName setName objs elem
  show objs ++
      [if (objs.foldl
          (fun acc obj =>
            if strContains (getName elem) (getName obj) then acc ++ [getName obj] else acc)
          ([] : List String)).length ≠ 0 then
        setName elem (getName elem ++ "_" ++ toString (objs.foldl
          (fun acc obj =>
            if strContains (getName elem) (getName obj) then acc ++ [getName obj] else acc)
          ([] : List String)).length)
      else elem] = _
  rw [instances_foldl_length getName (getName elem) objs []]
  by_cases h : objs.countP (fun o => strContains (getName elem) (getName o)) = 0 <;>
    simp [h]

theorem find?_append_of_none {α : Type} (p : α → Bool) :
    ∀ (l1 l2 : List α), l1.find? p = none → (l1 ++ l2).find? p = l2.find? p := by
  intro l1
  induction l1 with
  | nil => intro l2 _; simp
  | cons a l1 ih =>
    intro l2 h
    by_cases hp : p a
    · rw [List.find?_cons_of_pos _ hp] at h
      exact absurd h (by simp)
    · rw [List.find?_cons_of_neg _ hp] at h
      rw [List.cons_append, List.find?_cons_of_neg _ hp]
      exact ih l2 h

/-- C7: materials are deduplicated by name at the robot level.  A visual
whose material name is not yet registered (and collides with nothing) gets
its material object appended to `robot.materials` and links successfully; a
second visual holding the identical material object (same identity) links
against the already-registered object without adding anything; a visual
holding a *different* object with an already-registered name fails the
identity assertion. -/
theorem C7_material_dedup :
    (∀ (r : XMLRobot) (v : Visual),
        r.get_material v.material.name = none →
        (∀ m ∈ r.materials, strContains v.material.name m.name = false) →
        (∀ m ∈ r.materials, m.oid ≠ v.material.oid) →
        Visual.link_with_robot r v =
          .ok ({ r with materials := r.materials ++ [v.material] }, v)) ∧
    Visual.link_with_robot emptyRobot ⟨10, "v1", ⟨1, "blue"⟩⟩ =
      .ok ({ emptyRobot with materials := [⟨1, "blue"⟩] }, ⟨10, "v1", ⟨1, "blue"⟩⟩) ∧
    Visual.link_with_robot { emptyRobot with materials := [⟨1, "blue"⟩] } ⟨11, "v2", ⟨1, "blue"⟩⟩ =
      .ok ({ emptyRobot with materials := [⟨1, "blue"⟩] }, ⟨11, "v2", ⟨1, "blue"⟩⟩) ∧
    (∀ (r : XMLRobot) (v : Visual) (m : Material),
        r.get_material v.material.name = some m →
        m.oid ≠ v.material.oid →
        Visual.link_with_robot r v =
          .error "AssertionError: id(self._material) == id(robot.get_material(self._material.name))") ∧
    Visual.link_with_robot { emptyRobot with materials := [⟨1, "blue"⟩] } ⟨12, "v3", ⟨2, "blue"⟩⟩ =
      .error "AssertionError: id(self._material) == id(robot.get_material(self._material.name))" := by
  refine ⟨?_, rfl, rfl, ?_, rfl⟩
  · intro r v hno hcol hoid
    have hc0 : r.materials.countP (fun o => strContains v.material.name o.name) = 0 := by
      rw [List.countP_eq_zero]
      intro m hm
      simp [hcol m hm]
    have hmats : addMaterial r v.material = { r with materials := r.materials ++ [v.material] } := by
      unfold addMaterial
      congr 1
      show r.materials ++
          [if (r.materials.foldl
              (fun acc obj =>
                if strContains v.material.name (Material.name obj) then acc ++ [Material.name obj]
                else acc)
              ([] : List String)).length ≠ 0 then
            { v.material with name := Material.name v.material ++ "_" ++ toString (r.materials.foldl
              (fun acc obj =>
                if strContains v.material.name (Material.name obj) then acc ++ [Material.name obj]
                else acc)
              ([] : List String)).length }
          else v.material] = _
      rw [instances_foldl_length Material.name v.material.name r.materials []]
      simp [hc0]
    have hfind : (r.materials ++ [v.material]).find? (fun m => m.oid == v.material.oid) =
        some v.material := by
      rw [find?_append_of_none]
      · simp
      · rw [List.find?_eq_none]
        intro m hm
        simp [hoid m hm]
    have hgm : XMLRobot.get_material { r with materials := r.materials ++ [v.material] }
        v.material.name = some v.material := by
      show (r.materials ++ [v.material]).find? (fun m => m.name == v.material.name) =
        some v.material
      rw [find?_append_of_none]
      · simp
      · exact hno
    simp only [Visual.link_with_robot, hno, hmats, hfind, Option.getD_some, linkAssert, hgm]
    simp
  · intro r v m hm hoid
    have hne : (m.oid == v.material.oid) = false := by simpa using hoid
    simp only [Visual.link_with_robot, hm, hne, Bool.false_eq_true, if_false]

/-! ## C10 and C9 -/

/-- A lookup misses exactly when the key is not among the keys. -/
theorem lookupMap_eq_none {α : Type} (m : List (String × α)) (k : String) :
    lookupMap m k = none ↔ k ∉ mapKeys m := by
  induction m with
  | nil => simp [lookupMap, mapKeys]
  | cons hd tl ih =>
    obtain ⟨k1, v1⟩ := hd
    by_cases h : k1 = k
    · simp [lookupMap, mapKeys, h]
    · have h' : ¬ (k = k1) := fun hh => h hh.symm
      simp [lookupMap, mapKeys, h, h', ih]

/-- C10: `get_leaves(start)` returns Python `None` whenever `start` is a
non-empty link name that is not a child in `parent_map` — in particular for
the root (`twoLink`'s root `base`) — while only the no-argument call returns
the leaf links, i.e. exactly the links that are somebody's child but nobody's
parent. -/
theorem C10_get_leaves :
    (∀ (r : XMLRobot) (s : String), s ≠ "" →
        lookupMap r.parent_map s = none →
        r.get_leaves (some s) = .ok .pynone) ∧
    twoLink.get_leaves (some "base") = .ok .pynone ∧
    (∀ r : XMLRobot, r.get_leaves none = .ok (.leaves (leavesList r))) ∧
    (∀ (r : XMLRobot) (l : String),
        l ∈ leavesList r ↔ l ∈ mapKeys r.parent_map ∧ l ∉ mapKeys r.child_map) ∧
    twoLink.get_leaves none = .ok (.leaves ["arm"]) := by
  refine ⟨?_, rfl, fun r => rfl, ?_, rfl⟩
  · intro r s hs hn
    have hmem : s ∉ mapKeys r.parent_map := (lookupMap_eq_none _ _).mp hn
    simp [XMLRobot.get_leaves, hs, hmem]
  · intro r l
    simp [leavesList, List.mem_filter]

/-- C9: constructing a Motor raises (its `SmurfBase.__init__` call at
`representation.py:547` omits the instance argument), so the claimed
scenario can never be reached; the `mimic_*` property code itself, evaluated
against joint `j2` with `mimic = (joint j1, multiplier 2, offset 0)`, does
read back multiplier 2, mimicked joint `j1` and offset 0, as the claim
expects of a linked motor. -/
theorem C9_motor_mimic :
    Motor.init "m2" "j2" =
      .error ("TypeError: SmurfBase init of Motor m2 for joint j2 is missing the required" ++
        " positional instance argument") ∧
    m2.mimic_multiplier mimicRobot = .ok (some 2) ∧
    m2.mimic_motor mimicRobot = .ok "j1" ∧
    m2.mimic_offset mimicRobot = .ok (some 0) := by
  exact ⟨rfl, rfl, rfl, rfl⟩

/-! ## C5: get_chain -/

/-- The accumulated chain keeps its first element. -/
theorem foldl_chainStep_head (fixedF : Bool) :
    ∀ (js : List Joint) (x : String) (c : List String),
      (js.foldl (chainStep fixedF) (x :: c)).head? = some x := by
  intro js
  induction js with
  | nil => intro x c; rfl
  | cons j js ih =>
    intro x c
    rw [List.foldl_cons]
    have h : chainStep fixedF (x :: c) j =
        x :: ((if fixedF || j.joint_type != "fixed" then c ++ [j.name] else c) ++ [j.parent]) := by
      by_cases hb : (fixedF || j.joint_type != "fixed") = true <;>
        simp [chainStep, hb, List.cons_append]
    rw [h, ih]

/-- With a valid path the last accumulated entry is the root link. -/
theorem foldl_chainStep_last (r : XMLRobot) (root : String) (fixedF : Bool) :
    ∀ (js : List Joint) (l : String) (c : List String),
      isPath r root l js →
      (js.foldl (chainStep fixedF) (c ++ [l])).getLast? = some root := by
  intro js
  induction js with
  | nil =>
    intro l c hp
    have hl : l = root := hp
    rw [List.foldl_nil, hl, List.getLast?_concat]
  | cons j js ih =>
    intro l c hp
    obtain ⟨-, -, -, hrest⟩ := hp
    rw [List.foldl_cons]
    have h : chainStep fixedF (c ++ [l]) j =
        ((if fixedF || j.joint_type != "fixed" then (c ++ [l]) ++ [j.name] else c ++ [l])
          ++ [j.parent]) := rfl
    rw [h]
    exact ih j.parent _ hrest

/-- With `fixed=True` every step appends one joint and one link name. -/
theorem foldl_chainStep_true_length :
    ∀ (js : List Joint) (c : List String),
      (js.foldl (chainStep true) c).length = c.length + 2 * js.length := by
  intro js
  induction js with
  | nil => intro c; simp
  | cons j js ih =>
    intro c
    rw [List.foldl_cons, ih]
    simp [chainStep]
    omega

/-- The `get_chain` loop along a valid path is the fold of its step. -/
theorem getChainAux_path (r : XMLRobot) (root : String) (fixedF : Bool) :
    ∀ (js : List Joint) (l : String) (chain : List String) (fuel : ℕ),
      isPath r root l js → js.length ≤ fuel →
      getChainAux r root true true fixedF fuel l chain =
        .ok (js.foldl (chainStep fixedF) chain) := by
  intro js
  induction js with
  | nil =>
    intro l chain fuel hp _
    have hl : l = root := hp
    rw [List.foldl_nil, hl, getChainAux.eq_def]
    simp
  | cons j js ih =>
    intro l chain fuel hp hlen
    obtain ⟨hne, hpm, hjm, hrest⟩ := hp
    cases fuel with
    | zero => exact absurd hlen (by simp)
    | succ fuel =>
      rw [getChainAux, if_neg hne, hpm]
      cases fixedF with
      | true =>
        show getChainAux r root true true true fuel j.parent ((chain ++ [j.name]) ++ [j.parent]) =
          .ok ((j :: js).foldl (chainStep true) chain)
        rw [List.foldl_cons]
        have hstep : chainStep true chain j = (chain ++ [j.name]) ++ [j.parent] := by
          simp [chainStep]
        rw [hstep]
        exact ih j.parent _ fuel hrest (Nat.le_of_succ_le_succ hlen)
      | false =>
        show (match (match lookupMap r.joint_map j.name with
                | none => Except.error ("KeyError: " ++ j.name)
                | some jj =>
                  Except.ok (if jj.joint_type != "fixed" then chain ++ [j.name] else chain)) with
              | Except.error e => Except.error e
              | Except.ok chain1 =>
                getChainAux r root true true false fuel j.parent (chain1 ++ [j.parent])) =
          .ok ((j :: js).foldl (chainStep false) chain)
        rw [hjm]
        show getChainAux r root true true false fuel j.parent
            ((if j.joint_type != "fixed" then chain ++ [j.name] else chain) ++ [j.parent]) =
          .ok ((j :: js).foldl (chainStep false) chain)
        rw [List.foldl_cons]
        have hstep : chainStep false chain j =
            (if j.joint_type != "fixed" then chain ++ [j.name] else chain) ++ [j.parent] := by
          simp [chainStep]
        rw [hstep]
        exact ih j.parent _ fuel hrest (Nat.le_of_succ_le_succ hlen)

/-- C5: for a link `tip` that is a descendant of `root` (witnessed by a
`parent_map` path of joints), `get_chain(root, tip)` returns the walked
chain in root-to-tip order: it starts with `root`, ends with `tip`, holds
`depth(tip) + 1` link entries (total length `2*depth + 1` with all joints
kept), interleaves joint names when `joints=True` and omits `fixed`-type
joints when `fixed=False` (the fold step); when `tip` is not a descendant of
`root` the call fails (`KeyError` on the two-component robot). -/
theorem C5_get_chain :
    (∀ (r : XMLRobot) (root tip : String) (js : List Joint) (fixedF : Bool),
        isPath r root tip js → js.length ≤ r.links.length + 1 →
        r.get_chain root tip true true fixedF =
          .ok ((js.foldl (chainStep fixedF) [tip]).reverse) ∧
        ((js.foldl (chainStep fixedF) [tip]).reverse).head? = some root ∧
        ((js.foldl (chainStep fixedF) [tip]).reverse).getLast? = some tip ∧
        (js.foldl (chainStep true) [tip]).length = 2 * js.length + 1) ∧
    twoLink.get_chain "base" "arm" true true true = .ok ["base", "j1", "arm"] ∧
    forest.get_chain "a" "d" true true true = .error "KeyError: c" := by
  refine ⟨?_, rfl, rfl⟩
  intro r root tip js fixedF hp hlen
  refine ⟨?_, ?_, ?_, ?_⟩
  · have h := getChainAux_path r root fixedF js tip [tip] (r.links.length + 1) hp hlen
    show (match getChainAux r root true true fixedF (r.links.length + 1) tip [tip] with
          | Except.ok chain => Except.ok chain.reverse
          | Except.error e => Except.error e) =
        Except.ok ((js.foldl (chainStep fixedF) [tip]).reverse)
    rw [h]
  · rw [List.head?_reverse]
    exact foldl_chainStep_last r root fixedF js tip [] hp
  · rw [List.getLast?_reverse]
    exact foldl_chainStep_head fixedF js tip []
  · rw [foldl_chainStep_true_length]
    simp [Nat.add_comm]

/-- Witness for C5 at the two-link scenario robot. -/
theorem C5_witness :
    (isPath twoLink "base" "arm" [j1] ∧ [j1].length ≤ twoLink.links.length + 1) ∧
    (twoLink.get_chain "base" "arm" true true true =
        .ok (([j1].foldl (chainStep true) ["arm"]).reverse) ∧
      (([j1].foldl (chainStep true) ["arm"]).reverse).head? = some "base" ∧
      (([j1].foldl (chainStep true) ["arm"]).reverse).getLast? = some "arm" ∧
      ([j1].foldl (chainStep true) ["arm"]).length = 2 * [j1].length + 1) := by
  have hp : isPath twoLink "base" "arm" [j1] := ⟨by decide, rfl, rfl, rfl⟩
  have hl : [j1].length ≤ twoLink.links.length + 1 := by decide
  exact ⟨⟨hp, hl⟩, C5_get_chain.1 twoLink "base" "arm" [j1] true hp hl⟩

/-- Witness for C10 at the two-link scenario robot and its root. -/
theorem C10_witness :
    ("base" ≠ "" ∧ lookupMap twoLink.parent_map "base" = none) ∧
    twoLink.get_leaves (some "base") = .ok .pynone := by
  exact ⟨⟨by decide, rfl⟩, C10_get_leaves.1 twoLink "base" (by decide) rfl⟩

/-- Witness for C7: linking a visual with an unregistered material. -/
theorem C7_witness :
    XMLRobot.get_material emptyRobot "blue" = none ∧
    Visual.link_with_robot emptyRobot ⟨10, "v1", ⟨1, "blue"⟩⟩ =
      .ok ({ emptyRobot with materials := [⟨1, "blue"⟩] }, ⟨10, "v1", ⟨1, "blue"⟩⟩) := by
  refine ⟨rfl, ?_⟩
  exact C7_material_dedup.1 emptyRobot ⟨10, "v1", ⟨1, "blue"⟩⟩ rfl
    (fun m hm => absurd hm (List.not_mem_nil m))
    (fun m hm => absurd hm (List.not_mem_nil m))

/-! ## C1: get_transformation -/

/-- An all-zero Euler triple converts to the identity rotation. -/
theorem rpy_eq_one_of_zero (v : Fin 3 → ℝ) (h : ∀ k, v k = 0) : rpy_to_matrix v = 1 := by
  ext i j
  fin_cases i <;> fin_cases j <;>
    simp [rpy_to_matrix, h, Matrix.one_apply, Matrix.vecHead, Matrix.vecTail]

/-- The `get_transformation` walk along a valid chain is the fold of
left-multiplication by the successive joint-origin transforms. -/
theorem gtAux_chain (r : XMLRobot) (start : String) :
    ∀ (js : List Joint) (l : String) (t : Mat4) (fuel : ℕ),
      isChain r start l js → js.length ≤ fuel →
      gtAux r start fuel l t = .ok (js.foldl gtStep t) := by
  intro js
  induction js with
  | nil =>
    intro l t fuel hc _
    have hl : l = start := hc
    rw [List.foldl_nil, hl, gtAux.eq_def]
    simp
  | cons j js ih =>
    intro l t fuel hc hlen
    obtain ⟨hne, ⟨pp, hpm⟩, hj, hrest⟩ := hc
    cases fuel with
    | zero => exact absurd hlen (by simp)
    | succ fuel =>
      have hgp : r.get_parent l "joint" = .ok (some [j.name]) := by
        unfold XMLRobot.get_parent
        rw [hpm]
        rfl
      show (if l = start then Except.ok t
            else
              match r.get_parent l "joint" with
              | .error e => Except.error e
              | .ok none =>
                Except.error (l ++ " has no parent, but is different from start " ++ start)
              | .ok (some parents) =>
                match r.get_joint (parents.headD "") with
                | none => Except.error "AttributeError: NoneType has no attribute origin"
                | some pjoint =>
                  gtAux r start fuel pjoint.parent
                    (create_transformation pjoint.origin.xyz pjoint.origin.rpy * t)) =
          .ok ((j :: js).foldl gtStep t)
      rw [if_neg hne]
      show (match r.get_parent l "joint" with
            | .error e => Except.error e
            | .ok none =>
              Except.error (l ++ " has no parent, but is different from start " ++ start)
            | .ok (some parents) =>
              match r.get_joint (parents.headD "") with
              | none => Except.error "AttributeError: NoneType has no attribute origin"
              | some pjoint =>
                gtAux r start fuel pjoint.parent
                  (create_transformation pjoint.origin.xyz pjoint.origin.rpy * t)) =
          .ok ((j :: js).foldl gtStep t)
      rw [hgp]
      show (match r.get_joint j.name with
            | none => Except.error "AttributeError: NoneType has no attribute origin"
            | some pjoint =>
              gtAux r start fuel pjoint.parent
                (create_transformation pjoint.origin.xyz pjoint.origin.rpy * t)) =
          .ok ((j :: js).foldl gtStep t)
      rw [hj, List.foldl_cons]
      exact ih j.parent (gtStep t j) fuel hrest (Nat.le_of_succ_le_succ hlen)

/-- C1: `get_transformation(end, start)` composes the joint-origin
transforms along the `parent_map` path from `start` to `end` by repeated
left-multiplication `T = T_parentJoint * T`, walking upward from `end` (the
fold of `gtStep` starting from the identity transform); for the two-link
scenario robot `get_transformation("arm")` is the homogeneous matrix with
translation `[1,0,0]` and identity rotation; and the walk raises when a link
on the path has no parent before `start` is reached (two-component
robot). -/
theorem C1_get_transformation :
    (∀ (r : XMLRobot) (start endl : String) (js : List Joint),
        isChain r start endl js → js.length ≤ r.links.length + 1 →
        r.get_transformation endl (some start) = .ok (js.foldl gtStep
          (create_transformation (some (fun _ => 0)) (some (fun _ => 0))))) ∧
    twoLink.get_transformation "arm" none =
      .ok !![1, 0, 0, 1; 0, 1, 0, 0; 0, 0, 1, 0; 0, 0, 0, 1] ∧
    forest.get_transformation "d" (some "a") =
      .error "c has no parent, but is different from start a" := by
  refine ⟨?_, ?_, rfl⟩
  · intro r start endl js hc hlen
    show gtAux r start (r.links.length + 1) endl
        (create_transformation (some (fun _ => 0)) (some (fun _ => 0))) = _
    exact gtAux_chain r start js endl _ _ hc hlen
  · have h0 : twoLink.get_transformation "arm" none =
        .ok (create_transformation j1.origin.xyz j1.origin.rpy *
          create_transformation (some (fun _ => 0)) (some (fun _ => 0))) := rfl
    rw [h0]
    have hz : create_transformation (some (fun _ => 0)) (some (fun _ => 0)) = 1 := by
      show hom (rpy_to_matrix (fun _ => 0)) (fun _ => 0) = 1
      rw [rpy_eq_one_of_zero _ (fun k => rfl)]
      ext i j
      fin_cases i <;> fin_cases j <;>
        simp [hom, Matrix.one_apply, Matrix.vecHead, Matrix.vecTail]
    rw [hz, mul_one]
    have hr : rpy_to_matrix (vecD j1.origin.rpy) = 1 := by
      apply rpy_eq_one_of_zero
      intro k
      fin_cases k <;> rfl
    show Except.ok (hom (rpy_to_matrix (vecD j1.origin.rpy)) (vecD j1.origin.xyz)) = _
    rw [hr]
    congr 1

/-- Witness for C1 at the two-link scenario robot. -/
theorem C1_witness :
    (isChain twoLink "base" "arm" [j1] ∧ [j1].length ≤ twoLink.links.length + 1) ∧
    twoLink.get_transformation "arm" (some "base") =
      .ok ([j1].foldl gtStep (create_transformation (some (fun _ => 0)) (some (fun _ => 0)))) := by
  have hc : isChain twoLink "base" "arm" [j1] := ⟨by decide, ⟨"base", rfl⟩, rfl, rfl⟩
  have hl : [j1].length ≤ twoLink.links.length + 1 := by decide
  exact ⟨⟨hc, hl⟩, C1_get_transformation.1 twoLink "base" "arm" [j1] hc hl⟩

/-! ## C6: Pose.transform -/

/-- C6: `Pose.transform(T)` never produces the claimed result: its second
positional argument to `from_matrix` is `self.relative_to` (a frame name or
`None`), which lands in the `dec` rounding parameter, so the rounding
semantics is never the numeric default and the call fails for every pose
(first conjunct), whereas the re-decomposition the claim describes —
`Pose.from_matrix(T.dot(p.to_matrix()))` with the default 6-decimal rounding
— does succeed on the same input (second conjunct). -/
theorem C6_transform_dec_bug :
    (∀ (p : Pose) (T : Mat4), p.transform T = none) ∧
    (∃ q, Pose.from_matrix
        (1 * (Pose.mk (some ![0, 0, 0]) (some ![0, 0, 0]) (some "base")).to_matrix)
        (.num 6) none = some q) := by
  refine ⟨?_, ⟨_, rfl⟩⟩
  intro p T
  unfold Pose.transform
  cases h : p.relative_to <;> simp [decOfPy, Pose.from_matrix, round_array, h]

/-! ## C4: the from_matrix/to_matrix round-trip -/

/-- The cosine is 1-Lipschitz. -/
theorem cosD {a b d : ℝ} (h : |a - b| ≤ d) : |Real.cos a - Real.cos b| ≤ d := by
  rw [Real.cos_sub_cos]
  have h1 : |Real.sin ((a + b) / 2)| ≤ 1 := Real.abs_sin_le_one _
  have h2 : |Real.sin ((a - b) / 2)| ≤ |(a - b) / 2| := Real.abs_sin_le_abs
  calc |(-2) * Real.sin ((a + b) / 2) * Real.sin ((a - b) / 2)|
      = 2 * |Real.sin ((a + b) / 2)| * |Real.sin ((a - b) / 2)| := by
        rw [abs_mul, abs_mul]; norm_num
    _ ≤ 2 * 1 * |(a - b) / 2| := by
        apply mul_le_mul (mul_le_mul le_rfl h1 (abs_nonneg _) (by norm_num)) h2 (abs_nonneg _)
        norm_num
    _ = |a - b| := by rw [abs_div, abs_two]; ring
    _ ≤ d := h

/-- The sine is 1-Lipschitz. -/
theorem sinD {a b d : ℝ} (h : |a - b| ≤ d) : |Real.sin a - Real.sin b| ≤ d := by
  rw [Real.sin_sub_sin]
  have h1 : |Real.cos ((a + b) / 2)| ≤ 1 := Real.abs_cos_le_one _
  have h2 : |Real.sin ((a - b) / 2)| ≤ |(a - b) / 2| := Real.abs_sin_le_abs
  calc |2 * Real.sin ((a - b) / 2) * Real.cos ((a + b) / 2)|
      = 2 * |Real.sin ((a - b) / 2)| * |Real.cos ((a + b) / 2)| := by
        rw [abs_mul, abs_mul]; norm_num
    _ ≤ 2 * |(a - b) / 2| * 1 := by
        apply mul_le_mul (mul_le_mul le_rfl h2 (abs_nonneg _) (by norm_num)) h1 (abs_nonneg _)
        norm_num
    _ = |a - b| := by rw [abs_div, abs_two]; ring
    _ ≤ d := h

/-- Perturbation bound for a product of two factors bounded by 1. -/
theorem pairGen {a b c d : ℝ} (ha : |a| ≤ 1) (hd : |d| ≤ 1) :
    |a * b - c * d| ≤ |a - c| + |b - d| := by
  have key : a * b - c * d = a * (b - d) + (a - c) * d := by ring
  rw [key]
  calc |a * (b - d) + (a - c) * d| ≤ |a * (b - d)| + |(a - c) * d| := abs_add _ _
    _ = |a| * |b - d| + |a - c| * |d| := by rw [abs_mul, abs_mul]
    _ ≤ 1 * |b - d| + |a - c| * 1 := by
        apply add_le_add (mul_le_mul_of_nonneg_right ha (abs_nonneg _))
          (mul_le_mul_of_nonneg_left hd (abs_nonneg _))
    _ = |a - c| + |b - d| := by ring

/-- Perturbation bound for a product of three factors bounded by 1. -/
theorem tripleGen {a b e u w f : ℝ} (ha : |a| ≤ 1) (hb : |b| ≤ 1) (hw : |w| ≤ 1)
    (hf : |f| ≤ 1) : |a * b * e - u * w * f| ≤ |a - u| + |b - w| + |e - f| := by
  have hab : |a * b| ≤ 1 := by
    rw [abs_mul]
    exact mul_le_one₀ ha (abs_nonneg _) hb
  calc |a * b * e - u * w * f| ≤ |a * b - u * w| + |e - f| := pairGen hab hf
    _ ≤ (|a - u| + |b - w|) + |e - f| := add_le_add_right (pairGen ha hw) _
    _ = |a - u| + |b - w| + |e - f| := by ring

/-- Difference of differences is bounded by the summand perturbations. -/
theorem sub_sub_comb (A A2 B B2 : ℝ) : |(A2 - B2) - (A - B)| ≤ |A2 - A| + |B2 - B| := by
  have h : (A2 - B2) - (A - B) = (A2 - A) - (B2 - B) := by ring
  rw [h]
  exact abs_sub _ _

/-- Difference of sums is bounded by the summand perturbations. -/
theorem add_add_comb (A A2 B B2 : ℝ) : |(A2 + B2) - (A + B)| ≤ |A2 - A| + |B2 - B| := by
  have h : (A2 + B2) - (A + B) = (A2 - A) + (B2 - B) := by ring
  rw [h]
  exact abs_add _ _

/-- Entrywise stability of the Euler-angle rotation matrix: perturbing each
angle by at most `δ` moves every entry by at most `5δ`. -/
theorem rpy_close (v v2 : Fin 3 → ℝ) (δ : ℝ) (h : ∀ k, |v2 k - v k| ≤ δ) :
    ∀ i j, |rpy_to_matrix v2 i j - rpy_to_matrix v i j| ≤ 5 * δ := by
  have hδ : 0 ≤ δ := le_trans (abs_nonneg _) (h 0)
  have hc : ∀ k, |Real.cos (v2 k) - Real.cos (v k)| ≤ δ := fun k => cosD (h k)
  have hs : ∀ k, |Real.sin (v2 k) - Real.sin (v k)| ≤ δ := fun k => sinD (h k)
  intro i j
  fin_cases i <;> fin_cases j
  · show |Real.cos (v2 2) * Real.cos (v2 1) - Real.cos (v 2) * Real.cos (v 1)| ≤ 5 * δ
    refine le_trans (pairGen (Real.abs_cos_le_one _) (Real.abs_cos_le_one _)) ?_
    have e1 := hc 2; have e2 := hc 1; linarith
  · show |(Real.cos (v2 2) * Real.sin (v2 1) * Real.sin (v2 0) -
        Real.sin (v2 2) * Real.cos (v2 0)) -
        (Real.cos (v 2) * Real.sin (v 1) * Real.sin (v 0) -
        Real.sin (v 2) * Real.cos (v 0))| ≤ 5 * δ
    refine le_trans (sub_sub_comb _ _ _ _) ?_
    refine le_trans (add_le_add
      (tripleGen (Real.abs_cos_le_one _) (Real.abs_sin_le_one _) (Real.abs_sin_le_one _)
        (Real.abs_sin_le_one _))
      (pairGen (Real.abs_sin_le_one _) (Real.abs_cos_le_one _))) ?_
    have e1 := hc 2; have e2 := hs 1; have e3 := hs 0
    have e4 := hs 2; have e5 := hc 0
    linarith
  · show |(Real.cos (v2 2) * Real.sin (v2 1) * Real.cos (v2 0) +
        Real.sin (v2 2) * Real.sin (v2 0)) -
        (Real.cos (v 2) * Real.sin (v 1) * Real.cos (v 0) +
        Real.sin (v 2) * Real.sin (v 0))| ≤ 5 * δ
    refine le_trans (add_add_comb _ _ _ _) ?_
    refine le_trans (add_le_add
      (tripleGen (Real.abs_cos_le_one _) (Real.abs_sin_le_one _) (Real.abs_sin_le_one _)
        (Real.abs_cos_le_one _))
      (pairGen (Real.abs_sin_le_one _) (Real.abs_sin_le_one _))) ?_
    have e1 := hc 2; have e2 := hs 1; have e3 := hc 0
    have e4 := hs 2; have e5 := hs 0
    linarith
  · show |Real.sin (v2 2) * Real.cos (v2 1) - Real.sin (v 2) * Real.cos (v 1)| ≤ 5 * δ
    refine le_trans (pairGen (Real.abs_sin_le_one _) (Real.abs_cos_le_one _)) ?_
    have e1 := hs 2; have e2 := hc 1; linarith
  · show |(Real.sin (v2 2) * Real.sin (v2 1) * Real.sin (v2 0) +
        Real.cos (v2 2) * Real.cos (v2 0)) -
        (Real.sin (v 2) * Real.sin (v 1) * Real.sin (v 0) +
        Real.cos (v 2) * Real.cos (v 0))| ≤ 5 * δ
    refine le_trans (add_add_comb _ _ _ _) ?_
    refine le_trans (add_le_add
      (tripleGen (Real.abs_sin_le_one _) (Real.abs_sin_le_one _) (Real.abs_sin_le_one _)
        (Real.abs_sin_le_one _))
      (pairGen (Real.abs_cos_le_one _) (Real.abs_cos_le_one _))) ?_
    have e1 := hs 2; have e2 := hs 1; have e3 := hs 0
    have e4 := hc 2; have e5 := hc 0
    linarith
  · show |(Real.sin (v2 2) * Real.sin (v2 1) * Real.cos (v2 0) -
        Real.cos (v2 2) * Real.sin (v2 0)) -
        (Real.sin (v 2) * Real.sin (v 1) * Real.cos (v 0) -
        Real.cos (v 2) * Real.sin (v 0))| ≤ 5 * δ
    refine le_trans (sub_sub_comb _ _ _ _) ?_
    refine le_trans (add_le_add
      (tripleGen (Real.abs_sin_le_one _) (Real.abs_sin_le_one _) (Real.abs_sin_le_one _)
        (Real.abs_cos_le_one _))
      (pairGen (Real.abs_cos_le_one _) (Real.abs_sin_le_one _))) ?_
    have e1 := hs 2; have e2 := hs 1; have e3 := hc 0
    have e4 := hc 2; have e5 := hs 0
    linarith
  · show |(-Real.sin (v2 1)) - (-Real.sin (v 1))| ≤ 5 * δ
    have hneg : (-Real.sin (v2 1)) - (-Real.sin (v 1)) =
        -(Real.sin (v2 1) - Real.sin (v 1)) := by ring
    rw [hneg, abs_neg]
    have e1 := hs 1; linarith
  · show |Real.cos (v2 1) * Real.sin (v2 0) - Real.cos (v 1) * Real.sin (v 0)| ≤ 5 * δ
    refine le_trans (pairGen (Real.abs_cos_le_one _) (Real.abs_sin_le_one _)) ?_
    have e1 := hc 1; have e2 := hs 0; linarith
  · show |Real.cos (v2 1) * Real.cos (v2 0) - Real.cos (v 1) * Real.cos (v 0)| ≤ 5 * δ
    refine le_trans (pairGen (Real.abs_cos_le_one _) (Real.abs_cos_le_one _)) ?_
    have e1 := hc 1; have e2 := hc 0; linarith

/-- Rounding to `d` decimals moves a real by at most half an ulp. -/
theorem roundDec_sub_le (d : ℕ) (x : ℝ) : |roundDec d x - x| ≤ 1 / (2 * 10 ^ d) := by
  have hp : (0:ℝ) < 10 ^ d := by positivity
  have h1 : |(round (x * (10:ℝ) ^ d) : ℝ) - x * (10:ℝ) ^ d| ≤ 1 / 2 := by
    rw [abs_sub_comm]
    exact abs_sub_round _
  have h2 : roundDec d x - x = ((round (x * (10:ℝ) ^ d) : ℝ) - x * (10:ℝ) ^ d) / (10:ℝ) ^ d := by
    rw [roundDec]; field_simp; ring
  rw [h2, abs_div, abs_of_pos hp]
  calc |(round (x * (10:ℝ) ^ d) : ℝ) - x * (10:ℝ) ^ d| / (10:ℝ) ^ d
      ≤ (1 / 2) / (10:ℝ) ^ d := (div_le_div_iff_of_pos_right hp).mpr h1
    _ = 1 / (2 * 10 ^ d) := by rw [div_div]

/-- A homogeneous matrix with bottom row `[0,0,0,1]` is rebuilt exactly from
its rotation block and translation column. -/
theorem hom_decomp (T : Mat4) (h0 : T 3 0 = 0) (h1 : T 3 1 = 0) (h2 : T 3 2 = 0)
    (h3 : T 3 3 = 1) : hom (rotBlock T) (translation T) = T := by
  ext i j
  fin_cases i <;> fin_cases j <;>
    first
      | rfl
      | exact h0.symm
      | exact h1.symm
      | exact h2.symm
      | exact h3.symm

/-- Entrywise closeness of two assembled homogeneous matrices. -/
theorem hom_entry_close (R R2 : Mat3) (p p2 : Fin 3 → ℝ) (ε : ℝ) (hε : 0 ≤ ε)
    (hR : ∀ a b, |R2 a b - R a b| ≤ ε) (hp : ∀ a, |p2 a - p a| ≤ ε) :
    ∀ i j, |hom R2 p2 i j - hom R p i j| ≤ ε := by
  intro i j
  fin_cases i <;> fin_cases j <;>
    first
      | exact hR 0 0 | exact hR 0 1 | exact hR 0 2
      | exact hR 1 0 | exact hR 1 1 | exact hR 1 2
      | exact hR 2 0 | exact hR 2 1 | exact hR 2 2
      | exact hp 0 | exact hp 1 | exact hp 2
      | exact (by simpa using hε : |(0:ℝ) - 0| ≤ ε)
      | exact (by simpa using hε : |(1:ℝ) - 1| ≤ ε)

/-- C4: for every homogeneous transform `T` whose rotation block is a proper
rotation (an Euler-expressible matrix) and whose bottom row is `[0,0,0,1]`,
`Pose.from_matrix(T)` with the default 6-decimal rounding succeeds and
`.to_matrix()` reproduces `T` entrywise up to the rounding error
(3 * 10⁻⁶, i.e. a small multiple of half an ulp at 6 decimals); the
guarantee is stated for the matrix → pose → matrix direction only. -/
theorem C4_from_matrix_roundtrip (T : Mat4)
    (hrange : ∃ v, rotBlock T = rpy_to_matrix v)
    (h0 : T 3 0 = 0) (h1 : T 3 1 = 0) (h2 : T 3 2 = 0) (h3 : T 3 3 = 1) :
    ∃ p, Pose.from_matrix T (.num 6) none = some p ∧
      ∀ i j, |p.to_matrix i j - T i j| ≤ 3 / 10 ^ 6 := by
  have hw : rpy_to_matrix (matrix_to_rpy (rotBlock T)) = rotBlock T := by
    obtain ⟨v, hv⟩ := hrange
    exact Function.invFun_eq ⟨v, hv.symm⟩
  refine ⟨_, rfl, ?_⟩
  intro i j
  have hR : ∀ a b, |rpy_to_matrix (fun k => roundDec 6 (matrix_to_rpy (rotBlock T) k)) a b -
      rotBlock T a b| ≤ 3 / 10 ^ 6 := by
    intro a b
    have h5 := rpy_close (matrix_to_rpy (rotBlock T))
      (fun k => roundDec 6 (matrix_to_rpy (rotBlock T) k)) (1 / (2 * 10 ^ 6))
      (fun k => roundDec_sub_le 6 _) a b
    rw [hw] at h5
    refine h5.trans ?_
    norm_num
  have hp : ∀ a, |roundDec 6 (translation T a) - translation T a| ≤ 3 / 10 ^ 6 :=
    fun a => (roundDec_sub_le 6 _).trans (by norm_num)
  have key := hom_entry_close (rotBlock T)
    (rpy_to_matrix (fun k => roundDec 6 (matrix_to_rpy (rotBlock T) k)))
    (translation T) (fun a => roundDec 6 (translation T a))
    (3 / 10 ^ 6) (by norm_num) hR hp i j
  rw [hom_decomp T h0 h1 h2 h3] at key
  exact key

/-- Witness for C4 at the identity transform. -/
theorem C4_witness :
    ((∃ v, rotBlock (1 : Mat4) = rpy_to_matrix v) ∧ (1 : Mat4) 3 0 = 0 ∧
      (1 : Mat4) 3 1 = 0 ∧ (1 : Mat4) 3 2 = 0 ∧ (1 : Mat4) 3 3 = 1) ∧
    (∃ p, Pose.from_matrix (1 : Mat4) (.num 6) none = some p ∧
      ∀ i j, |p.to_matrix i j - (1 : Mat4) i j| ≤ 3 / 10 ^ 6) := by
  have hr : rotBlock (1 : Mat4) = rpy_to_matrix ![0, 0, 0] := by
    rw [rpy_eq_one_of_zero ![0, 0, 0] (by intro k; fin_cases k <;> rfl)]
    ext i j
    fin_cases i <;> fin_cases j <;>
      simp [rotBlock, Matrix.one_apply, Matrix.vecHead, Matrix.vecTail]
  have h0 : (1 : Mat4) 3 0 = 0 := Matrix.one_apply_ne (by decide)
  have h1 : (1 : Mat4) 3 1 = 0 := Matrix.one_apply_ne (by decide)
  have h2 : (1 : Mat4) 3 2 = 0 := Matrix.one_apply_ne (by decide)
  have h3 : (1 : Mat4) 3 3 = 1 := Matrix.one_apply_eq _
  exact ⟨⟨⟨_, hr⟩, h0, h1, h2, h3⟩,
    C4_from_matrix_roundtrip 1 ⟨_, hr⟩ h0 h1 h2 h3⟩
